import Mathlib

set_option linter.unusedVariables false

/-! # Shallow embedding of `PasswordSettingsManager.py` (ctSESAM-python-memorizing)

The store keeps an in-memory list of per-domain password settings plus a cached copy
of the most recently imported remote record set, and reconciles the two by a
last-write-wins merge on modification timestamps.

Modelling choices, each noted at the definition it concerns:
* Timestamps are serialized as ISO-8601 `YYYY-MM-DDTHH:MM:SS` strings and compared
  after `datetime.strptime`; `strftime`/`strptime` are mutually inverse on that
  format, so a date is modelled as a `Nat` and a JSON `mDate` value as either a date
  string carrying that `Nat` or a raw `datetime` object (which the source stores at
  one place, line 151).
* The `Crypter`/`Packer` collaborators (encrypt/decrypt, compress/decompress) are
  external to the repository and are contracted to be mutually inverse, so the
  encrypted blob is modelled by its decoded plaintext payload.
* `PasswordSetting` (a separate file of the repository, not among the embedded
  sources) is modelled from the spec's Record data model and RecordCodec contract.
-/

/-- A JSON value standing in an `mDate` field: either an ISO-8601 date string
(denoting the date `d`) or a raw `datetime` object, which only arises from line 151
of the source where `datetime.now()` is stored unformatted. -/
inductive JDate where
  | str : Nat → JDate
  | dt : Nat → JDate
deriving DecidableEq

/-- Date denoted by an `mDate` field value.  `datetime.strptime` maps the string
`str d` back to the date `d`; on a raw `datetime` it would raise a `TypeError`, but
every payload that the source actually parses with `strptime` came out of
`json.loads` and hence holds strings, except inside `get_export_data` where a
synthesized raw-`datetime` tombstone can be re-scanned — a path on which the
function fails to produce a blob in any case (see `serializable`). -/
def JDate.val : JDate → Nat
  | .str d => d
  | .dt d => d

/-- True when the value is an ISO date string (the only form `json.dumps` accepts; a
raw `datetime` object makes `json.dumps` raise a `TypeError`). -/
def JDate.isStr : JDate → Bool
  | .str _ => true
  | .dt _ => false

/-- One record of a serialized payload (a JSON dict): the `domain` key, the `mDate`
key, the optional `deleted` key, and the codec-opaque policy fields treated as one
indivisible optional payload (absent on tombstone dicts, which carry only `domain`,
`mDate` and `deleted`). -/
structure RecordData where
  domain : String
  mDate : JDate
  deleted : Option Bool := none
  payload : Option Nat := none
deriving DecidableEq

/-- Python's `'deleted' in data_set and data_set['deleted']`: the key is present and
its value truthy. -/
def RecordData.isDeleted (d : RecordData) : Bool := d.deleted.getD false

/-- Modelled from the spec: `PasswordSetting.py` is not among the embedded sources.
Per the data model (§3) a Record carries its `domain` (the merge key), its
modification timestamp, its `synced` flag, and codec-opaque policy fields treated as
one indivisible payload. -/
structure PasswordSetting where
  domain : String
  mDate : Nat
  synced : Bool := false
  payload : Option Nat := none
deriving DecidableEq

/-- Modelled from the spec: the `PasswordSetting(domain)` constructor makes a fresh
default record for `domain`; its creation timestamp is the wall clock `now` (no
claim depends on the default's timestamp or payload). -/
def PasswordSetting.new (domain : String) (now : Nat) : PasswordSetting :=
  { domain := domain, mDate := now, synced := false, payload := some 0 }

def PasswordSetting.get_domain (s : PasswordSetting) : String := s.domain

def PasswordSetting.get_m_date (s : PasswordSetting) : Nat := s.mDate

def PasswordSetting.is_synced (s : PasswordSetting) : Bool := s.synced

/-- Modelled from the spec: RecordCodec `applyData` — in-place field overwrite from
the record data, preserving the domain (at every call site of the source the dict's
domain equals the setting's domain anyway). -/
def PasswordSetting.load_from_dict (s : PasswordSetting) (d : RecordData) : PasswordSetting :=
  { s with mDate := d.mDate.val, payload := d.payload }

def PasswordSetting.set_synced (s : PasswordSetting) (b : Bool) : PasswordSetting :=
  { s with synced := b }

/-- Modelled from the spec: RecordCodec `toData` — the record as a JSON dict, the
timestamp formatted by `strftime` as an ISO date string, no `deleted` key. -/
def PasswordSetting.to_dict (s : PasswordSetting) : RecordData :=
  { domain := s.domain, mDate := JDate.str s.mDate, deleted := none, payload := s.payload }

/-- Decoded plaintext of the settings file: `{'settings': [...], 'synced': [...]}`. -/
structure SavedSettings where
  settings : List RecordData
  synced : List String
deriving DecidableEq

/-- The store: in-memory list of settings and the cached remote record set
(`None` until an import happens). The `settings_file` path plays no role beyond
selecting the file and is not modelled. -/
structure PasswordSettingsManager where
  settings : List PasswordSetting
  remote_data : Option (List RecordData) := none
deriving DecidableEq

/-- Domains of the in-memory records, in order. -/
def settingsDomains (l : List PasswordSetting) : List String := l.map (·.domain)

/-- The data-model invariant: at most one record per domain in the in-memory
collection. -/
def UniqueDomains (l : List PasswordSetting) : Prop := (settingsDomains l).Nodup

instance (l : List PasswordSetting) : Decidable (UniqueDomains l) := by
  unfold UniqueDomains; infer_instance

/-- Source lines 35-50, body of the `for data_set in saved_settings['settings']`
loop of `load_settings_from_file`: scan the settings left to right; on a domain
match remember `found` and, when the file's record is strictly newer, overwrite the
record in place and set its synced flag from the file's `synced` list; after the
scan, append a new record when no domain matched. -/
def loadStep (syncedL : List String) (settings : List PasswordSetting) (d : RecordData) :
    List PasswordSetting :=
  let found := settings.any (fun s => s.domain == d.domain)
  let settings := settings.map (fun s =>
    if s.domain == d.domain && decide (d.mDate.val > s.mDate) then
      (s.load_from_dict d).set_synced (syncedL.contains s.domain)
    else s)
  if found then settings
  else settings ++
    [((PasswordSetting.new d.domain 0).load_from_dict d).set_synced (syncedL.contains d.domain)]

/-- Source lines 25-51, `load_settings_from_file(self, password)`: when the backing
file is missing (`os.path.isfile` false) nothing happens; otherwise the file is
decrypted, decompressed and parsed (modelled by its decoded payload `saved`;
decryption or parse failure raises and is outside the success path modelled here)
and each saved record is merged into the collection.  The fresh
`PasswordSetting(domain)` constructor's timestamp is passed as `0`: it is
immediately overwritten by `load_from_dict`. -/
def PasswordSettingsManager.load_settings_from_file (m : PasswordSettingsManager)
    (password : String) (file : Option SavedSettings) : PasswordSettingsManager :=
  match file with
  | none => m
  | some saved => { m with settings := saved.settings.foldl (loadStep saved.synced) m.settings }

/-- Source lines 72-84, `get_setting(self, domain)`: return the first record with
the domain, else create a default record (at wall clock `now`), append and return
it. -/
def PasswordSettingsManager.get_setting (m : PasswordSettingsManager) (domain : String)
    (now : Nat) : PasswordSetting × PasswordSettingsManager :=
  match m.settings.find? (fun s => s.domain == domain) with
  | some setting => (setting, m)
  | none =>
    let setting := PasswordSetting.new domain now
    (setting, { m with settings := m.settings ++ [setting] })

/-- Source lines 93-95, the `for i, existing_setting in enumerate(self.settings)`
loop of `save_setting` with `pop(i)` inside: Python's enumerate iterator advances
its index after the pop, so the element that slid into the popped slot is skipped
(kept unexamined) and scanning resumes after it. -/
def enumPopMatches (domain : String) : List PasswordSetting → List PasswordSetting
  | [] => []
  | [s] => if s.domain == domain then [] else [s]
  | s :: t :: rest =>
    if s.domain == domain then t :: enumPopMatches domain rest
    else s :: enumPopMatches domain (t :: rest)

/-- Source lines 86-96, `save_setting(self, setting)`: pop matching records while
enumerating (see `enumPopMatches`), then append the supplied setting. -/
def PasswordSettingsManager.save_setting (m : PasswordSettingsManager)
    (setting : PasswordSetting) : PasswordSettingsManager :=
  { m with settings := enumPopMatches setting.domain m.settings ++ [setting] }

/-- Source lines 105-111, the `while i < len(self.settings)` loop of
`delete_setting`: pop the record at `i` on a domain match without advancing `i`,
advance otherwise — a left-to-right scan removing every match. -/
def removeAllMatches (domain : String) : List PasswordSetting → List PasswordSetting
  | [] => []
  | s :: rest =>
    if s.domain == domain then removeAllMatches domain rest
    else s :: removeAllMatches domain rest

/-- Source lines 98-111, `delete_setting(self, setting)`. -/
def PasswordSettingsManager.delete_setting (m : PasswordSettingsManager)
    (setting : PasswordSetting) : PasswordSettingsManager :=
  { m with settings := removeAllMatches setting.domain m.settings }

/-- Source lines 113-118, `get_domain_list(self)`. -/
def PasswordSettingsManager.get_domain_list (m : PasswordSettingsManager) : List String :=
  m.settings.map (·.get_domain)

/-- Source lines 120-131, `get_settings_as_list(self)`: the records as dicts plus
the domains of the synced ones. -/
def PasswordSettingsManager.get_settings_as_list (m : PasswordSettingsManager) : SavedSettings :=
  { settings := m.settings.map (·.to_dict)
    synced := (m.settings.filter (·.is_synced)).map (·.get_domain) }

/-- Source lines 141-153, body of the `for data_set in self.remote_data` loop of
`get_export_data`.  When the remote entry is a tombstone, scan the outgoing list by
index and replace an entry whenever `setting_dict['domain'] == setting_dict['domain']`
— the source literally compares the field to itself, so the domain test is always
true — and the tombstone's date is strictly newer than the entry's.  Then, when the
remote entry's domain is absent from the outgoing list, append a synthesized
tombstone whose `mDate` is the raw `datetime.now()` object (`JDate.dt now`), not a
formatted string. -/
def exportStep (now : Nat) (settings_list : List RecordData) (data_set : RecordData) :
    List RecordData :=
  let settings_list :=
    if data_set.isDeleted then
      settings_list.map (fun setting_dict =>
        if setting_dict.domain == setting_dict.domain
            && decide (data_set.mDate.val > setting_dict.mDate.val) then data_set
        else setting_dict)
    else settings_list
  if (settings_list.map (·.domain)).contains data_set.domain then settings_list
  else settings_list ++ [{ domain := data_set.domain, mDate := JDate.dt now, deleted := some true }]

/-- Source lines 139-153 of `get_export_data`: the outgoing list before
serialization — the records as dicts, then, when a remote record set is cached and
non-empty (Python truthiness of `self.remote_data`), one `exportStep` per remote
entry. -/
def exportList (m : PasswordSettingsManager) (now : Nat) : List RecordData :=
  let settings_list := (m.get_settings_as_list).settings
  match m.remote_data with
  | none => settings_list
  | some rd => if rd.isEmpty then settings_list else rd.foldl (exportStep now) settings_list

/-- `json.dumps` succeeds on the outgoing list iff every `mDate` value is a string;
a raw `datetime` object raises `TypeError: Object of type datetime is not JSON
serializable`. -/
def serializable (l : List RecordData) : Bool := l.all (fun d => d.mDate.isStr)

/-- Source lines 133-155, `get_export_data(self, password)`: build the outgoing
list, serialize, compress, encrypt and base64-encode it.  The blob is modelled by
its plaintext payload (the codecs are mutually inverse); `none` models the
serialization failure.  The method never assigns to `self`, which the returned
manager records. -/
def PasswordSettingsManager.get_export_data (m : PasswordSettingsManager) (password : String)
    (now : Nat) : Option (List RecordData) × PasswordSettingsManager :=
  let l := exportList m now
  (if serializable l then some l else none, m)

/-- Source lines 170-185, the `while i < len(self.settings)` loop of
`update_from_export_data` for one incoming `data_set`: a left-to-right scan (a
`pop(i)` leaves `i` in place, i.e. continues with the rest; otherwise `i` is
advanced past the element).  Returns the new list, the `found` flag, and whether
the scan set `update_remote` (a match whose incoming date is not strictly newer). -/
def mergeOne (d : RecordData) : List PasswordSetting → List PasswordSetting × Bool × Bool
  | [] => ([], false, false)
  | setting :: rest =>
    if setting.domain == d.domain then
      if decide (d.mDate.val > setting.mDate) then
        if d.isDeleted then
          let r := mergeOne d rest
          (r.1, true, r.2.2)
        else
          let r := mergeOne d rest
          ((setting.load_from_dict d).set_synced true :: r.1, true, r.2.2)
      else
        let r := mergeOne d rest
        (setting :: r.1, true, true)
    else
      let r := mergeOne d rest
      (setting :: r.1, r.2.1, r.2.2)

/-- Source lines 167-190, body of the `for data_set in self.remote_data` loop of
`update_from_export_data`: merge one incoming entry (`mergeOne`), then append a new
record loaded from the entry and marked synced when no domain matched.  The fresh
`PasswordSetting(domain)` constructor's timestamp is passed as `0`: it is
immediately overwritten by `load_from_dict`.  The accumulator carries the settings
list and the `update_remote` flag. -/
def importStep (acc : List PasswordSetting × Bool) (d : RecordData) :
    List PasswordSetting × Bool :=
  let r := mergeOne d acc.1
  let settings :=
    if r.2.1 then r.1
    else r.1 ++ [((PasswordSetting.new d.domain 0).load_from_dict d).set_synced true]
  (settings, acc.2 || r.2.2)

/-- Source lines 166-190: the first loop of `update_from_export_data`, starting
from `update_remote = False`. -/
def firstLoop (settings : List PasswordSetting) (rd : List RecordData) :
    List PasswordSetting × Bool :=
  rd.foldl importStep (settings, false)

/-- Source lines 192-199, body of the `for setting in self.settings` loop of the
second pass: `found` iff some remote entry has the setting's domain; set
`update_remote` when a matching remote entry's date is not strictly newer than the
setting's; set it as well when no remote entry matched. -/
def secondStep (rd : List RecordData) (update_remote : Bool) (setting : PasswordSetting) : Bool :=
  let found := rd.any (fun d => setting.domain == d.domain)
  let update_remote :=
    if rd.any (fun d => setting.domain == d.domain && decide (d.mDate.val ≤ setting.mDate)) then
      true
    else update_remote
  if found then update_remote else true

/-- Source lines 191-199: the second pass of `update_from_export_data`. -/
def secondPass (rd : List RecordData) (settings : List PasswordSetting)
    (update_remote : Bool) : Bool :=
  settings.foldl (secondStep rd) update_remote

/-- Source lines 157-200, `update_from_export_data(self, password, data)`: the blob
is modelled by its decoded plaintext payload `rd` (the codecs are mutually
inverse), stored wholesale as the new remote snapshot; then the two passes run and
the `update_remote` flag is returned together with the new store state. -/
def PasswordSettingsManager.update_from_export_data (m : PasswordSettingsManager)
    (password : String) (rd : List RecordData) : Bool × PasswordSettingsManager :=
  let fl := firstLoop m.settings rd
  let update_remote := secondPass rd fl.1 fl.2
  (update_remote, { m with settings := fl.1, remote_data := some rd })

/-- Source lines 202-209, `set_all_settings_to_synced(self)`. -/
def PasswordSettingsManager.set_all_settings_to_synced (m : PasswordSettingsManager) :
    PasswordSettingsManager :=
  { m with settings := m.settings.map (·.set_synced true) }

/-- The right-hand side of the spec's return-value contract for
`update_from_export_data`: some post-merge local record has no incoming entry for
its domain, or some matching incoming entry's timestamp is not strictly newer than
the local record's. -/
def needExport (settings : List PasswordSetting) (rd : List RecordData) : Bool :=
  settings.any (fun s =>
    (!(rd.any (fun d => s.domain == d.domain)))
      || rd.any (fun d => s.domain == d.domain && decide (d.mDate.val ≤ s.mDate)))

/-- Concrete store with one record and no cached remote data, used by several
concrete instances below. -/
def exStore : PasswordSettingsManager :=
  { settings := [{ domain := "a", mDate := 5, synced := false, payload := some 1 }]
    remote_data := none }

/-- The plaintext payload `get_export_data` produces for `exStore`. -/
def exBlob : List RecordData :=
  [{ domain := "a", mDate := JDate.str 5, deleted := none, payload := some 1 }]

/-- Concrete store whose outgoing entry (domain `b`) is older than a cached remote
tombstone for the unrelated domain `a`. -/
def exStoreC3 : PasswordSettingsManager :=
  { settings := [{ domain := "b", mDate := 5, synced := false, payload := some 7 }]
    remote_data := some [{ domain := "a", mDate := JDate.str 9, deleted := some true }] }

/-- Concrete store with an empty collection and a cached remote record for a domain
with no local record, forcing `get_export_data` to synthesize a tombstone. -/
def exStoreC4 : PasswordSettingsManager :=
  { settings := [], remote_data := some [{ domain := "a", mDate := JDate.str 3 }] }

/-- Imported payload with two entries for the same domain: an older live record and
a newer tombstone. -/
def exPayloadDup : List RecordData :=
  [{ domain := "a", mDate := JDate.str 3, deleted := none, payload := some 1 },
   { domain := "a", mDate := JDate.str 9, deleted := some true, payload := none }]

/-! ## Theorems -/

/-- C9: if the backing file does not exist, `load_settings_from_file` raises no
error and leaves the in-memory collection (indeed the whole store) unchanged, for
every password and every prior state — the `os.path.isfile` guard skips the whole
body. -/
theorem c9_missing_file_noop (m : PasswordSettingsManager) (password : String) :
    m.load_settings_from_file password none = m := rfl

/-- C10: `get_export_data` leaves the store's state unchanged — the outgoing list
is built from fresh dicts and `self` is never assigned, so the in-memory collection
(records, fields, synced flags and order) and the cached `remote_data` snapshot are
identical to what they were before the call, for every store, password and clock. -/
theorem c10_get_export_data_pure (m : PasswordSettingsManager) (password : String) (now : Nat) :
    (m.get_export_data password now).2 = m := rfl

/-- C3 (code bug at source line 144): the self-comparison
`setting_dict['domain'] == setting_dict['domain']` is always true, so a retained
remote tombstone replaces outgoing entries of *other* domains whenever its date is
newer.  Concretely: `exStoreC3`'s only outgoing entry is for domain `b`, yet the
cached tombstone for domain `a` overwrites it, and the export payload ends up with
no entry for `b` at all. -/
theorem c3_tombstone_replaces_other_domain :
    exportList exStoreC3 100 =
      [{ domain := "a", mDate := JDate.str 9, deleted := some true, payload := none }] := by
  decide

/-- C4 (code bug at source line 151): the tombstone synthesized for a remote-only
domain stores `datetime.now()` itself, not a `strftime`-formatted string, so its
`mDate` is not an ISO-8601 string and `json.dumps` fails on the payload
(`get_export_data` yields no blob). -/
theorem c4_raw_datetime_tombstone :
    exportList exStoreC4 50 =
      [{ domain := "a", mDate := JDate.dt 50, deleted := some true, payload := none }] ∧
    (exStoreC4.get_export_data "pw" 50).1 = none := by
  decide

/-- C1 (counterexample): on the one-record store `exStore`, feeding the blob of
`get_export_data` into `update_from_export_data` on a store with the identical
collection returns `true`, not `false` as the claim states — the equal timestamps
take the not-strictly-newer branch, which flags the remote as stale — although the
collection is indeed left equal. -/
theorem c1_roundtrip_counterexample :
    (exStore.get_export_data "pw" 0).1 = some exBlob ∧
    (exStore.update_from_export_data "pw" exBlob).1 = true ∧
    (exStore.update_from_export_data "pw" exBlob).2.settings = exStore.settings := by
  decide

/-- C2 (counterexample): importing a tombstone for a domain with no local record
into an empty store does *not* drop it — lines 186-190 run for every not-found
entry regardless of the `deleted` flag, so a live record built from the tombstone's
data is inserted. -/
theorem c2_tombstone_inserted_counterexample :
    ((PasswordSettingsManager.mk [] none).update_from_export_data "pw"
        [{ domain := "x", mDate := JDate.str 7, deleted := some true }]).2.settings =
      [{ domain := "x", mDate := 7, synced := true, payload := none }] := by
  decide

/-- C7 (counterexample): with a payload holding two entries for the same domain —
an older live record that sets `update_remote` in the first pass and a newer
tombstone that then removes the local record — `update_from_export_data` returns
`true` although after merging no local record lacks a counterpart and none has a
not-strictly-older timestamp (the collection is empty, so `needExport` is false). -/
theorem c7_return_value_counterexample :
    (exStore.update_from_export_data "pw" exPayloadDup).1 = true ∧
    needExport (exStore.update_from_export_data "pw" exPayloadDup).2.settings exPayloadDup
      = false := by
  decide

/-! ## Helper lemmas about the merge scan -/

theorem uniqueDomains_cons {x : PasswordSetting} {rest : List PasswordSetting} :
    UniqueDomains (x :: rest) ↔ x.domain ∉ settingsDomains rest ∧ UniqueDomains rest := by
  simp [UniqueDomains, settingsDomains]

theorem mem_settingsDomains {s : PasswordSetting} {l : List PasswordSetting} (h : s ∈ l) :
    s.domain ∈ settingsDomains l :=
  List.mem_map_of_mem (·.domain) h

theorem mergeOne_no_match (d : RecordData) (l : List PasswordSetting)
    (h : ∀ s ∈ l, s.domain ≠ d.domain) : mergeOne d l = (l, false, false) := by
  induction l with
  | nil => rfl
  | cons s rest ih =>
    have hs : (s.domain == d.domain) = false := by
      simpa using h s (List.mem_cons_self s rest)
    simp [mergeOne, hs, ih (fun x hx => h x (List.mem_cons_of_mem _ hx))]

theorem mergeOne_found (d : RecordData) (l : List PasswordSetting) :
    (mergeOne d l).2.1 = l.any (fun s => s.domain == d.domain) := by
  induction l with
  | nil => rfl
  | cons s rest ih =>
    by_cases hs : (s.domain == d.domain) = true
    · simp only [mergeOne, hs, if_true, List.any_cons]
      split
      · split <;> simp
      · simp
    · have hs' : (s.domain == d.domain) = false := by simpa using hs
      simp [mergeOne, hs', ih]

theorem mergeOne_keep (d : RecordData) (l : List PasswordSetting) (s : PasswordSetting)
    (hmem : s ∈ l) (hne : s.domain ≠ d.domain) : s ∈ (mergeOne d l).1 := by
  induction l with
  | nil => cases hmem
  | cons x rest ih =>
    rcases List.mem_cons.mp hmem with h | h
    · subst h
      have hx : (s.domain == d.domain) = false := by simpa using hne
      simp [mergeOne, hx]
    · by_cases hx : (x.domain == d.domain) = true
      · simp only [mergeOne, hx, if_true]
        split
        · split
          · exact ih h
          · exact List.mem_cons_of_mem _ (ih h)
        · exact List.mem_cons_of_mem _ (ih h)
      · have hx' : (x.domain == d.domain) = false := by simpa using hx
        simp only [mergeOne, hx', Bool.false_eq_true, if_false]
        exact List.mem_cons_of_mem _ (ih h)

theorem mergeOne_mem_src (d : RecordData) (l : List PasswordSetting) (s : PasswordSetting)
    (h : s ∈ (mergeOne d l).1) : s ∈ l ∨ s.domain = d.domain := by
  induction l with
  | nil => cases h
  | cons x rest ih =>
    by_cases hx : (x.domain == d.domain) = true
    · have hxd : x.domain = d.domain := by simpa using hx
      simp only [mergeOne, hx, if_true] at h
      split at h
      · split at h
        · rcases ih h with h' | h'
          · exact Or.inl (List.mem_cons_of_mem _ h')
          · exact Or.inr h'
        · rcases List.mem_cons.mp h with h' | h'
          · subst h'; exact Or.inr hxd
          · rcases ih h' with h'' | h''
            · exact Or.inl (List.mem_cons_of_mem _ h'')
            · exact Or.inr h''
      · rcases List.mem_cons.mp h with h' | h'
        · subst h'; exact Or.inl (List.mem_cons_self _ _)
        · rcases ih h' with h'' | h''
          · exact Or.inl (List.mem_cons_of_mem _ h'')
          · exact Or.inr h''
    · have hx' : (x.domain == d.domain) = false := by simpa using hx
      simp only [mergeOne, hx', Bool.false_eq_true, if_false] at h
      rcases List.mem_cons.mp h with h' | h'
      · subst h'; exact Or.inl (List.mem_cons_self _ _)
      · rcases ih h' with h'' | h''
        · exact Or.inl (List.mem_cons_of_mem _ h'')
        · exact Or.inr h''

theorem mergeOne_ge (d : RecordData) (l : List PasswordSetting) (s : PasswordSetting)
    (h : s ∈ (mergeOne d l).1) (hdom : s.domain = d.domain) : d.mDate.val ≤ s.mDate := by
  induction l with
  | nil => cases h
  | cons x rest ih =>
    by_cases hx : (x.domain == d.domain) = true
    · simp only [mergeOne, hx, if_true] at h
      split at h
      · rename_i hnew
        split at h
        · exact ih h
        · rcases List.mem_cons.mp h with h' | h'
          · subst h'
            simp [PasswordSetting.load_from_dict, PasswordSetting.set_synced]
          · exact ih h'
      · rename_i hnew
        rcases List.mem_cons.mp h with h' | h'
        · subst h'
          simpa using Nat.le_of_not_lt (by simpa using hnew)
        · exact ih h'
    · have hx' : (x.domain == d.domain) = false := by simpa using hx
      simp only [mergeOne, hx', Bool.false_eq_true, if_false] at h
      rcases List.mem_cons.mp h with h' | h'
      · subst h'
        exact absurd hdom (by simpa using hx')
      · exact ih h'

theorem mergeOne_ur (d : RecordData) (l : List PasswordSetting)
    (h : (mergeOne d l).2.2 = true) :
    ∃ s, s ∈ l ∧ s ∈ (mergeOne d l).1 ∧ s.domain = d.domain ∧ d.mDate.val ≤ s.mDate := by
  induction l with
  | nil => simp [mergeOne] at h
  | cons x rest ih =>
    by_cases hx : (x.domain == d.domain) = true
    · have hxd : x.domain = d.domain := by simpa using hx
      simp only [mergeOne, hx, if_true] at h ⊢
      split at h
      · rename_i hnew
        split at h
        · simp only at h
          obtain ⟨s, hs1, hs2, hs3, hs4⟩ := ih h
          refine ⟨s, List.mem_cons_of_mem _ hs1, ?_, hs3, hs4⟩
          simp only [hnew]
          split <;> simp [hs2]
        · simp only at h
          obtain ⟨s, hs1, hs2, hs3, hs4⟩ := ih h
          refine ⟨s, List.mem_cons_of_mem _ hs1, ?_, hs3, hs4⟩
          simp only [hnew]
          split <;> simp [hs2, List.mem_cons_of_mem]
      · rename_i hnew
        refine ⟨x, List.mem_cons_self _ _, ?_, hxd, ?_⟩
        · simp only [hnew, Bool.false_eq_true, if_false]
          exact List.mem_cons_self _ _
        · exact Nat.le_of_not_lt (by simpa using hnew)
    · have hx' : (x.domain == d.domain) = false := by simpa using hx
      simp only [mergeOne, hx', Bool.false_eq_true, if_false] at h ⊢
      obtain ⟨s, hs1, hs2, hs3, hs4⟩ := ih h
      exact ⟨s, List.mem_cons_of_mem _ hs1, List.mem_cons_of_mem _ hs2, hs3, hs4⟩

theorem mergeOne_domains (d : RecordData) (l : List PasswordSetting) :
    (settingsDomains (mergeOne d l).1).Sublist (settingsDomains l) := by
  induction l with
  | nil => simp [mergeOne, settingsDomains]
  | cons x rest ih =>
    by_cases hx : (x.domain == d.domain) = true
    · simp only [mergeOne, hx, if_true]
      split
      · split
        · exact ih.trans (List.sublist_cons_self _ _)
        · simpa [settingsDomains, PasswordSetting.load_from_dict, PasswordSetting.set_synced]
            using ih.cons₂ x.domain
      · simpa [settingsDomains] using ih.cons₂ x.domain
    · have hx' : (x.domain == d.domain) = false := by simpa using hx
      simp only [mergeOne, hx', Bool.false_eq_true, if_false]
      simpa [settingsDomains] using ih.cons₂ x.domain

theorem eq_of_uniqueDomains {l : List PasswordSetting} (h : UniqueDomains l)
    {a b : PasswordSetting} (ha : a ∈ l) (hb : b ∈ l) (hd : a.domain = b.domain) : a = b := by
  unfold UniqueDomains settingsDomains at h
  exact List.inj_on_of_nodup_map h ha hb hd

theorem mergeOne_tie (l : List PasswordSetting) (d : RecordData) (L : PasswordSetting)
    (hinv : UniqueDomains l) (hmem : L ∈ l) (hdom : L.domain = d.domain)
    (hle : d.mDate.val ≤ L.mDate) : mergeOne d l = (l, true, true) := by
  induction l with
  | nil => cases hmem
  | cons x rest ih =>
    obtain ⟨hx, hrest⟩ := uniqueDomains_cons.mp hinv
    rcases List.mem_cons.mp hmem with h | h
    · subst h
      have hd : (L.domain == d.domain) = true := by simpa using hdom
      have hnew : (decide (d.mDate.val > L.mDate)) = false := by
        simpa using Nat.not_lt.mpr hle
      have hnm : mergeOne d rest = (rest, false, false) :=
        mergeOne_no_match _ _ (fun y hy hc => hx (by
          rw [hdom]; exact hc ▸ mem_settingsDomains hy))
      simp [mergeOne, hd, hnew, hnm]
    · have hxs : (x.domain == d.domain) = false := by
        simp only [beq_eq_false_iff_ne]
        intro hc
        exact hx (by rw [hc, ← hdom]; exact mem_settingsDomains h)
      simp [mergeOne, hxs, ih hrest h]

theorem mergeOne_self (l : List PasswordSetting) (s : PasswordSetting)
    (hinv : UniqueDomains l) (hmem : s ∈ l) : mergeOne s.to_dict l = (l, true, true) :=
  mergeOne_tie l s.to_dict s hinv hmem (by simp [PasswordSetting.to_dict])
    (by simp [PasswordSetting.to_dict, JDate.val])

/-- C5: for a local record `L` and an incoming entry `I` of the same domain with
`I.modifiedAt > L.modifiedAt` (strict), after the merge step of the import
(`mergeOne`, the per-entry scan of `update_from_export_data`) the collection holds
for that domain exactly one record — carrying `I`'s timestamp and opaque payload
and marked `synced = true` — or no record at all when `I` is a tombstone. -/
theorem c5_incoming_newer_wins (l : List PasswordSetting) (d : RecordData)
    (L : PasswordSetting) (hinv : UniqueDomains l) (hmem : L ∈ l)
    (hdom : L.domain = d.domain) (hlt : L.mDate < d.mDate.val) :
    (mergeOne d l).1.filter (fun s => s.domain == d.domain) =
      (if d.isDeleted then []
       else [{ domain := L.domain, mDate := d.mDate.val, synced := true,
               payload := d.payload }]) := by
  induction l with
  | nil => cases hmem
  | cons x rest ih =>
    obtain ⟨hx, hrest⟩ := uniqueDomains_cons.mp hinv
    rcases List.mem_cons.mp hmem with h | h
    · subst h
      have hd : (L.domain == d.domain) = true := by simpa using hdom
      have hnew : (decide (d.mDate.val > L.mDate)) = true := by simpa using hlt
      have hnm : mergeOne d rest = (rest, false, false) :=
        mergeOne_no_match _ _ (fun y hy hc => hx (by
          rw [hdom]; exact hc ▸ mem_settingsDomains hy))
      have hfil : rest.filter (fun s => s.domain == d.domain) = [] := by
        rw [List.filter_eq_nil_iff]
        intro y hy
        simp only [beq_iff_eq]
        intro hc
        exact hx (by rw [hdom]; exact hc ▸ mem_settingsDomains hy)
      by_cases hdel : d.isDeleted = true
      · simp [mergeOne, hd, hnew, hdel, hnm, hfil]
      · have hdel' : d.isDeleted = false := by simpa using hdel
        simp [mergeOne, hd, hnew, hdel', hnm, hfil, List.filter_cons, hdom,
          PasswordSetting.load_from_dict, PasswordSetting.set_synced]
    · have hxs : (x.domain == d.domain) = false := by
        simp only [beq_eq_false_iff_ne]
        intro hc
        exact hx (by rw [hc, ← hdom]; exact mem_settingsDomains h)
      simp only [mergeOne, hxs, Bool.false_eq_true, if_false, List.filter_cons, hxs]
      exact ih hrest h

/-- C5 witness: a one-record collection, an incoming live record and an incoming
tombstone, both strictly newer. -/
theorem c5_incoming_newer_wins_witness :
    (mergeOne { domain := "a", mDate := JDate.str 9, deleted := none, payload := some 3 }
        [{ domain := "a", mDate := 5, synced := false, payload := some 1 }]).1.filter
        (fun s => s.domain == "a") =
      [{ domain := "a", mDate := 9, synced := true, payload := some 3 }] := by
  have := c5_incoming_newer_wins
    [{ domain := "a", mDate := 5, synced := false, payload := some 1 }]
    { domain := "a", mDate := JDate.str 9, deleted := none, payload := some 3 }
    { domain := "a", mDate := 5, synced := false, payload := some 1 }
    (by decide) (by decide) (by decide) (by decide)
  simpa using this

/-- C6: for a local record `L` and an incoming entry `I` of the same domain with
`I.modifiedAt <= L.modifiedAt` (ties included), the merge leaves the collection
unchanged — every field of `L`, its synced flag included — both in the import scan
(`mergeOne`) and in the file-load scan (`loadStep`); the tie always favors the
existing local record. -/
theorem c6_local_wins_on_tie (l : List PasswordSetting) (d : RecordData)
    (L : PasswordSetting) (syncedL : List String) (hinv : UniqueDomains l)
    (hmem : L ∈ l) (hdom : L.domain = d.domain) (hle : d.mDate.val ≤ L.mDate) :
    (mergeOne d l).1 = l ∧ loadStep syncedL l d = l := by
  constructor
  · rw [mergeOne_tie l d L hinv hmem hdom hle]
  · have hfound : (l.any (fun s => s.domain == d.domain)) = true :=
      List.any_eq_true.mpr ⟨L, hmem, by simpa using hdom⟩
    have hmap : (l.map (fun s =>
        if s.domain == d.domain && decide (d.mDate.val > s.mDate) then
          (s.load_from_dict d).set_synced (syncedL.contains s.domain)
        else s)) = l := by
      have hcongr := List.map_congr_left (l := l)
        (f := fun s => if s.domain == d.domain && decide (d.mDate.val > s.mDate) then
          (s.load_from_dict d).set_synced (syncedL.contains s.domain) else s)
        (g := id) ?_
      · simpa using hcongr
      · intro s hs
        by_cases hsd : s.domain = d.domain
        · have hsL : s = L := eq_of_uniqueDomains hinv hs hmem (by rw [hsd, hdom])
          subst hsL
          have : (decide (d.mDate.val > s.mDate)) = false := by
            simpa using Nat.not_lt.mpr hle
          simp [this]
        · simp [hsd]
    simp only [loadStep]
    rw [hfound]
    simpa using hmap

/-- C6 witness: a one-record collection against an equally-timestamped incoming
entry — nothing changes in either scan. -/
theorem c6_local_wins_on_tie_witness :
    (mergeOne { domain := "a", mDate := JDate.str 5, deleted := none, payload := some 3 }
        [{ domain := "a", mDate := 5, synced := false, payload := some 1 }]).1 =
      [{ domain := "a", mDate := 5, synced := false, payload := some 1 }] ∧
    loadStep ["a"] [{ domain := "a", mDate := 5, synced := false, payload := some 1 }]
        { domain := "a", mDate := JDate.str 5, deleted := none, payload := some 3 } =
      [{ domain := "a", mDate := 5, synced := false, payload := some 1 }] :=
  c6_local_wins_on_tie
    [{ domain := "a", mDate := 5, synced := false, payload := some 1 }]
    { domain := "a", mDate := JDate.str 5, deleted := none, payload := some 3 }
    { domain := "a", mDate := 5, synced := false, payload := some 1 }
    ["a"] (by decide) (by decide) (by decide) (by decide)

/-- C2 (amended): for an incoming entry `I` whose domain has no record in the
in-memory collection, the merge inserts a new record built from `I` and marked
synced — whether or not `I` is a tombstone.  Tombstones for absent domains are not
dropped: lines 186-190 run for every not-found entry regardless of the `deleted`
flag. -/
theorem c2_insert_on_absent_amended (m : PasswordSettingsManager) (password : String)
    (d : RecordData) (habs : ∀ s ∈ m.settings, s.domain ≠ d.domain) :
    (m.update_from_export_data password [d]).2.settings =
      m.settings ++ [((PasswordSetting.new d.domain 0).load_from_dict d).set_synced true] := by
  have hnm := mergeOne_no_match d m.settings habs
  simp [PasswordSettingsManager.update_from_export_data, firstLoop, importStep, hnm]

/-- C2 witness: importing a tombstone for the absent domain `x` into an empty
store inserts a record for `x`. -/
theorem c2_insert_on_absent_amended_witness :
    ((PasswordSettingsManager.mk [] none).update_from_export_data "pw"
        [{ domain := "x", mDate := JDate.str 7, deleted := some true }]).2.settings =
      [] ++ [((PasswordSetting.new "x" 0).load_from_dict
        { domain := "x", mDate := JDate.str 7, deleted := some true }).set_synced true] :=
  c2_insert_on_absent_amended (PasswordSettingsManager.mk [] none) "pw"
    { domain := "x", mDate := JDate.str 7, deleted := some true } (by simp)

/-! ## Lemmas for the uniqueness invariant -/

theorem uniqueDomains_append_one {l : List PasswordSetting} {s : PasswordSetting}
    (h : UniqueDomains l) (hs : s.domain ∉ settingsDomains l) :
    UniqueDomains (l ++ [s]) := by
  unfold UniqueDomains settingsDomains at *
  rw [List.map_append, List.map_cons, List.map_nil, List.nodup_append]
  refine ⟨h, List.nodup_singleton _, ?_⟩
  intro x hx hx1
  rw [List.mem_singleton] at hx1
  subst hx1
  exact hs hx

theorem removeAllMatches_eq_filter (dom : String) (l : List PasswordSetting) :
    removeAllMatches dom l = l.filter (fun s => !(s.domain == dom)) := by
  induction l with
  | nil => rfl
  | cons s rest ih =>
    by_cases hs : (s.domain == dom) = true
    · simp [removeAllMatches, hs, ih]
    · have hs' : (s.domain == dom) = false := by simpa using hs
      simp [removeAllMatches, hs', ih]

theorem enumPopMatches_no_match (dom : String) :
    ∀ l, (∀ s ∈ l, s.domain ≠ dom) → enumPopMatches dom l = l
  | [], _ => rfl
  | [s], h => by
    have hs : (s.domain == dom) = false := by simpa using h s (by simp)
    simp [enumPopMatches, hs]
  | s :: t :: rest, h => by
    have hs : (s.domain == dom) = false := by simpa using h s (by simp)
    have ih := enumPopMatches_no_match dom (t :: rest)
      (fun x hx => h x (List.mem_cons_of_mem _ hx))
    simp [enumPopMatches, hs, ih]

theorem enumPopMatches_eq_filter (dom : String) :
    ∀ l, UniqueDomains l →
      enumPopMatches dom l = l.filter (fun s => !(s.domain == dom))
  | [], _ => rfl
  | [s], _ => by
    by_cases hs : (s.domain == dom) = true
    · simp [enumPopMatches, hs]
    · have hs' : (s.domain == dom) = false := by simpa using hs
      simp [enumPopMatches, hs']
  | s :: t :: rest, hinv => by
    obtain ⟨hs1, hrest⟩ := uniqueDomains_cons.mp hinv
    by_cases hs : (s.domain == dom) = true
    · have hsd : s.domain = dom := by simpa using hs
      have hno : ∀ x ∈ t :: rest, x.domain ≠ dom := fun x hx hc => hs1 (by
        rw [hsd, ← hc]
        exact mem_settingsDomains hx)
      have hfil : (t :: rest).filter (fun s => !(s.domain == dom)) = t :: rest := by
        rw [List.filter_eq_self]
        intro x hx
        simpa using hno x hx
      have hnm := enumPopMatches_no_match dom rest
        (fun x hx => hno x (List.mem_cons_of_mem _ hx))
      simp only [enumPopMatches, hs, if_true, hnm, List.filter_cons, hs]
      rw [List.filter_cons] at hfil
      simpa [hs] using hfil.symm
    · have hs' : (s.domain == dom) = false := by simpa using hs
      have ih := enumPopMatches_eq_filter dom (t :: rest) hrest
      simp [enumPopMatches, hs', ih]

theorem importStep_inv (l : List PasswordSetting) (b : Bool) (d : RecordData)
    (h : UniqueDomains l) : UniqueDomains (importStep (l, b) d).1 := by
  by_cases hf : (mergeOne d l).2.1 = true
  · simp only [importStep, hf, if_true]
    exact List.Nodup.sublist (mergeOne_domains d l) h
  · have hany : (l.any (fun s => s.domain == d.domain)) = false := by
      rw [← mergeOne_found]
      simpa using hf
    have hno : ∀ s ∈ l, s.domain ≠ d.domain := by
      intro s hs hc
      have : (l.any (fun s => s.domain == d.domain)) = true :=
        List.any_eq_true.mpr ⟨s, hs, by simpa using hc⟩
      rw [hany] at this
      cases this
    have hnm := mergeOne_no_match d l hno
    simp only [importStep, hnm, Bool.false_eq_true, if_false]
    apply uniqueDomains_append_one h
    intro hc
    obtain ⟨s, hs, hsd⟩ := List.mem_map.mp hc
    exact hno s hs hsd

theorem foldl_importStep_inv (rd : List RecordData) (l : List PasswordSetting) (b : Bool)
    (h : UniqueDomains l) : UniqueDomains (rd.foldl importStep (l, b)).1 := by
  induction rd generalizing l b with
  | nil => simpa using h
  | cons d rest ih =>
    rw [List.foldl_cons]
    exact ih (importStep (l, b) d).1 (importStep (l, b) d).2 (importStep_inv l b d h)

theorem loadStep_inv (syncedL : List String) (l : List PasswordSetting) (d : RecordData)
    (h : UniqueDomains l) : UniqueDomains (loadStep syncedL l d) := by
  have hdom : settingsDomains (l.map (fun s =>
      if s.domain == d.domain && decide (d.mDate.val > s.mDate) then
        (s.load_from_dict d).set_synced (syncedL.contains s.domain)
      else s)) = settingsDomains l := by
    unfold settingsDomains
    rw [List.map_map]
    apply List.map_congr_left
    intro s hs
    by_cases hc : (s.domain == d.domain && decide (d.mDate.val > s.mDate)) = true
    · simp [hc, PasswordSetting.load_from_dict, PasswordSetting.set_synced, Function.comp]
    · have hc' : (s.domain == d.domain && decide (d.mDate.val > s.mDate)) = false := by
        simpa using hc
      simp [hc', Function.comp]
  by_cases hfound : (l.any (fun s => s.domain == d.domain)) = true
  · simp only [loadStep, hfound, if_true]
    unfold UniqueDomains
    rw [hdom]
    exact h
  · have hfound' : (l.any (fun s => s.domain == d.domain)) = false := by simpa using hfound
    simp only [loadStep, hfound', Bool.false_eq_true, if_false]
    apply uniqueDomains_append_one
    · unfold UniqueDomains
      rw [hdom]
      exact h
    · intro hc
      rw [show (((PasswordSetting.new d.domain 0).load_from_dict d).set_synced
          (syncedL.contains d.domain)).domain = d.domain from rfl] at hc
      rw [hdom] at hc
      obtain ⟨s, hs, hsd⟩ := List.mem_map.mp hc
      have : (l.any (fun s => s.domain == d.domain)) = true :=
        List.any_eq_true.mpr ⟨s, hs, by simpa using hsd⟩
      rw [hfound'] at this
      cases this

theorem foldl_loadStep_inv (syncedL : List String) (ds : List RecordData)
    (l : List PasswordSetting) (h : UniqueDomains l) :
    UniqueDomains (ds.foldl (loadStep syncedL) l) := by
  induction ds generalizing l with
  | nil => simpa using h
  | cons d rest ih =>
    rw [List.foldl_cons]
    exact ih _ (loadStep_inv syncedL l d h)

theorem uniqueDomains_filter_append (l : List PasswordSetting) (s : PasswordSetting)
    (h : UniqueDomains l) :
    UniqueDomains (l.filter (fun x => !(x.domain == s.domain)) ++ [s]) := by
  apply uniqueDomains_append_one
  · exact List.Nodup.sublist ((List.filter_sublist _).map _) h
  · intro hc
    obtain ⟨x, hx, hxd⟩ := List.mem_map.mp hc
    have := (List.mem_filter.mp hx).2
    simp [hxd] at this

/-- C8: each store operation — `get_setting`, `save_setting`, `delete_setting`,
`load_settings_from_file`, `update_from_export_data` — preserves the invariant that
the in-memory collection holds at most one record per domain: starting from a
collection satisfying it, the resulting collection satisfies it, for every
argument. -/
theorem c8_unique_domain_invariant (m : PasswordSettingsManager)
    (h : UniqueDomains m.settings) (dom password password2 : String) (now : Nat)
    (s : PasswordSetting) (file : Option SavedSettings) (rd : List RecordData) :
    UniqueDomains (m.get_setting dom now).2.settings ∧
    UniqueDomains (m.save_setting s).settings ∧
    UniqueDomains (m.delete_setting s).settings ∧
    UniqueDomains (m.load_settings_from_file password file).settings ∧
    UniqueDomains (m.update_from_export_data password2 rd).2.settings := by
  refine ⟨?_, ?_, ?_, ?_, ?_⟩
  · unfold PasswordSettingsManager.get_setting
    cases hf : m.settings.find? (fun x => x.domain == dom) with
    | some x => simpa using h
    | none =>
      simp only
      apply uniqueDomains_append_one h
      intro hc
      obtain ⟨x, hx, hxd⟩ := List.mem_map.mp hc
      have hno := List.find?_eq_none.mp hf x hx
      have hxd' : x.domain = dom := by simpa [PasswordSetting.new] using hxd
      exact hno (by simpa using hxd')
  · show UniqueDomains (enumPopMatches s.domain m.settings ++ [s])
    rw [enumPopMatches_eq_filter s.domain m.settings h]
    exact uniqueDomains_filter_append m.settings s h
  · show UniqueDomains (removeAllMatches s.domain m.settings)
    rw [removeAllMatches_eq_filter]
    exact List.Nodup.sublist ((List.filter_sublist _).map _) h
  · cases file with
    | none => simpa using h
    | some saved => exact foldl_loadStep_inv saved.synced saved.settings m.settings h
  · exact foldl_importStep_inv rd m.settings false h

/-- C8 witness: the concrete one-record store `exStore` with concrete arguments for
each of the five operations. -/
theorem c8_unique_domain_invariant_witness :
    UniqueDomains (exStore.get_setting "b" 3).2.settings ∧
    UniqueDomains (exStore.save_setting { domain := "c", mDate := 4 }).settings ∧
    UniqueDomains (exStore.delete_setting { domain := "c", mDate := 4 }).settings ∧
    UniqueDomains (exStore.load_settings_from_file "pw"
      (some { settings := [{ domain := "d", mDate := JDate.str 9 }], synced := ["d"] })).settings ∧
    UniqueDomains (exStore.update_from_export_data "pw2" exPayloadDup).2.settings :=
  c8_unique_domain_invariant exStore (by decide) "b" "pw" "pw2" 3
    { domain := "c", mDate := 4 }
    (some { settings := [{ domain := "d", mDate := JDate.str 9 }], synced := ["d"] })
    exPayloadDup

/-! ## Lemmas for the export/import round trip and the return-value contract -/

theorem serializable_to_dict (l : List PasswordSetting) :
    serializable (l.map (·.to_dict)) = true := by
  unfold serializable
  rw [List.all_eq_true]
  intro d hd
  obtain ⟨s, hs, rfl⟩ := List.mem_map.mp hd
  rfl

theorem secondStep_eq (rd : List RecordData) (b : Bool) (s : PasswordSetting) :
    secondStep rd b s = (b || ((!(rd.any (fun d => s.domain == d.domain)))
      || rd.any (fun d => s.domain == d.domain && decide (d.mDate.val ≤ s.mDate)))) := by
  unfold secondStep
  by_cases hf : (rd.any (fun d => s.domain == d.domain)) = true
  · by_cases hg : (rd.any (fun d => s.domain == d.domain
        && decide (d.mDate.val ≤ s.mDate))) = true
    · simp [hf, hg]
    · have hg' : (rd.any (fun d => s.domain == d.domain
          && decide (d.mDate.val ≤ s.mDate))) = false := by simpa using hg
      simp [hf, hg']
  · have hf' : (rd.any (fun d => s.domain == d.domain)) = false := by simpa using hf
    have hg' : (rd.any (fun d => s.domain == d.domain
        && decide (d.mDate.val ≤ s.mDate))) = false := by
      rw [List.any_eq_false]
      intro d hd
      intro hc
      simp only [Bool.and_eq_true] at hc
      have : (rd.any (fun d => s.domain == d.domain)) = true :=
        List.any_eq_true.mpr ⟨d, hd, hc.1⟩
      rw [hf'] at this
      cases this
    simp [hf', hg']

theorem secondPass_eq (rd : List RecordData) :
    ∀ (l : List PasswordSetting) (b : Bool), secondPass rd l b = (b || needExport l rd)
  | [], b => by simp [secondPass, needExport]
  | s :: rest, b => by
    have ih := secondPass_eq rd rest (secondStep rd b s)
    simp only [secondPass, List.foldl_cons] at ih ⊢
    rw [ih, secondStep_eq]
    simp [needExport, Bool.or_assoc]

theorem foldl_importStep_self (ds : List RecordData) (l : List PasswordSetting) (b : Bool)
    (hinv : UniqueDomains l) (hds : ∀ d ∈ ds, ∃ s, s ∈ l ∧ d = s.to_dict) :
    ds.foldl importStep (l, b) = (l, b || !ds.isEmpty) := by
  induction ds generalizing b with
  | nil => simp
  | cons d rest ih =>
    obtain ⟨s, hs, hd⟩ := hds d (List.mem_cons_self _ _)
    subst hd
    have hme := mergeOne_self l s hinv hs
    have hstep : importStep (l, b) s.to_dict = (l, true) := by
      simp [importStep, hme]
    rw [List.foldl_cons, hstep]
    rw [ih true (fun d hd => hds d (List.mem_cons_of_mem _ hd))]
    simp

theorem needExport_to_dict (l : List PasswordSetting) :
    needExport l (l.map (·.to_dict)) = !l.isEmpty := by
  cases l with
  | nil => rfl
  | cons s rest =>
    have hge : ((s :: rest).map (·.to_dict)).any
        (fun d => s.domain == d.domain && decide (d.mDate.val ≤ s.mDate)) = true :=
      List.any_eq_true.mpr ⟨s.to_dict, List.mem_map_of_mem _ (List.mem_cons_self _ _),
        by simp [PasswordSetting.to_dict, JDate.val]⟩
    simp only [needExport, List.isEmpty_cons, Bool.not_false, List.any_cons]
    rw [hge]
    simp

/-- C1 (amended): for every store whose cached remote snapshot is empty and whose
collection has at most one record per domain, `get_export_data` produces the blob
holding exactly the collection's records, leaves the exporting store untouched, and
feeding the blob into `update_from_export_data` on a second store with the identical
collection leaves that collection equal — but returns `true` whenever the
collection is non-empty (the equal timestamps flag the remote as stale; `false` is
returned only for the empty store), not `false` as the spec's round-trip property
states. -/
theorem c1_roundtrip_amended (m m2 : PasswordSettingsManager) (pw pw2 : String) (now : Nat)
    (hrd : m.remote_data = none) (hinv : UniqueDomains m.settings)
    (hm2 : m2.settings = m.settings) :
    (m.get_export_data pw now).1 = some (m.settings.map (·.to_dict)) ∧
    (m.get_export_data pw now).2 = m ∧
    (m2.update_from_export_data pw2 (m.settings.map (·.to_dict))).1
      = !m.settings.isEmpty ∧
    (m2.update_from_export_data pw2 (m.settings.map (·.to_dict))).2.settings
      = m.settings := by
  have hexp : exportList m now = m.settings.map (·.to_dict) := by
    unfold exportList
    rw [hrd]
    rfl
  have hfold : firstLoop m2.settings (m.settings.map (·.to_dict)) =
      (m.settings, !m.settings.isEmpty) := by
    rw [hm2]
    unfold firstLoop
    rw [foldl_importStep_self _ _ _ hinv (fun d hd => by
      obtain ⟨s, hs, rfl⟩ := List.mem_map.mp hd
      exact ⟨s, hs, rfl⟩)]
    cases m.settings <;> simp
  refine ⟨?_, rfl, ?_, ?_⟩
  · unfold PasswordSettingsManager.get_export_data
    simp only [hexp, serializable_to_dict]
    simp
  · have h1 : (m2.update_from_export_data pw2 (m.settings.map (·.to_dict))).1 =
        secondPass (m.settings.map (·.to_dict))
          (firstLoop m2.settings (m.settings.map (·.to_dict))).1
          (firstLoop m2.settings (m.settings.map (·.to_dict))).2 := rfl
    rw [h1, hfold, secondPass_eq]
    simp [needExport_to_dict]
  · have h2 : (m2.update_from_export_data pw2 (m.settings.map (·.to_dict))).2.settings =
        (firstLoop m2.settings (m.settings.map (·.to_dict))).1 := rfl
    rw [h2, hfold]

/-- C1 witness: the concrete one-record store `exStore` with an identical second
store. -/
theorem c1_roundtrip_amended_witness :
    (exStore.get_export_data "pw" 0).1 = some (exStore.settings.map (·.to_dict)) ∧
    (exStore.get_export_data "pw" 0).2 = exStore ∧
    (exStore.update_from_export_data "pw2" (exStore.settings.map (·.to_dict))).1
      = !exStore.settings.isEmpty ∧
    (exStore.update_from_export_data "pw2" (exStore.settings.map (·.to_dict))).2.settings
      = exStore.settings :=
  c1_roundtrip_amended exStore exStore "pw" "pw2" 0 rfl (by decide) rfl

theorem importStep_mem_src (l : List PasswordSetting) (b : Bool) (d : RecordData)
    (s : PasswordSetting) (h : s ∈ (importStep (l, b) d).1) :
    s ∈ l ∨ s.domain = d.domain := by
  unfold importStep at h
  simp only at h
  split at h
  · exact mergeOne_mem_src d l s h
  · rcases List.mem_append.mp h with h' | h'
    · exact mergeOne_mem_src d l s h'
    · rw [List.mem_singleton] at h'
      subst h'
      exact Or.inr rfl

theorem importStep_ge (l : List PasswordSetting) (b : Bool) (d : RecordData)
    (s : PasswordSetting) (hs : s ∈ (importStep (l, b) d).1) (hdom : s.domain = d.domain) :
    d.mDate.val ≤ s.mDate := by
  unfold importStep at hs
  simp only at hs
  split at hs
  · exact mergeOne_ge d l s hs hdom
  · rcases List.mem_append.mp hs with h' | h'
    · exact mergeOne_ge d l s h' hdom
    · rw [List.mem_singleton] at h'
      subst h'
      simp [PasswordSetting.new, PasswordSetting.load_from_dict, PasswordSetting.set_synced]

theorem foldl_importStep_ge (dom : String) (v : Nat) (ds : List RecordData) :
    ∀ (l : List PasswordSetting) (b : Bool), dom ∉ ds.map (·.domain) →
      (∀ s ∈ l, s.domain = dom → v ≤ s.mDate) →
      ∀ s ∈ (ds.foldl importStep (l, b)).1, s.domain = dom → v ≤ s.mDate := by
  induction ds with
  | nil =>
    intro l b _ hl s hs hsd
    exact hl s (by simpa using hs) hsd
  | cons d rest ih =>
    intro l b hds hl s hs hsd
    rw [List.map_cons, List.mem_cons] at hds
    push_neg at hds
    rw [List.foldl_cons] at hs
    refine ih (importStep (l, b) d).1 (importStep (l, b) d).2 hds.2 ?_ s hs hsd
    intro x hx hxd
    rcases importStep_mem_src l b d x hx with h | h
    · exact hl x h hxd
    · exact absurd (hxd ▸ h.symm) (Ne.symm hds.1)

theorem foldl_importStep_keep (ds : List RecordData) :
    ∀ (l : List PasswordSetting) (b : Bool) (s : PasswordSetting),
      s ∈ l → s.domain ∉ ds.map (·.domain) → s ∈ (ds.foldl importStep (l, b)).1 := by
  induction ds with
  | nil =>
    intro l b s hs _
    simpa using hs
  | cons d rest ih =>
    intro l b s hs hds
    rw [List.map_cons, List.mem_cons] at hds
    push_neg at hds
    rw [List.foldl_cons]
    have h1 : s ∈ (importStep (l, b) d).1 := by
      unfold importStep
      simp only
      have hkeep := mergeOne_keep d l s hs hds.1
      split
      · exact hkeep
      · exact List.mem_append_left _ hkeep
    exact ih (importStep (l, b) d).1 (importStep (l, b) d).2 s h1 hds.2

theorem foldl_importStep_ur (rd : List RecordData) :
    ∀ (l : List PasswordSetting) (b : Bool), (rd.map (·.domain)).Nodup →
      (rd.foldl importStep (l, b)).2 = true →
      b = true ∨ needExport (rd.foldl importStep (l, b)).1 rd = true := by
  induction rd with
  | nil =>
    intro l b _ h
    exact Or.inl (by simpa using h)
  | cons d rest ih =>
    intro l b hnd hf
    rw [List.map_cons, List.nodup_cons] at hnd
    obtain ⟨hd1, hd2⟩ := hnd
    rw [List.foldl_cons] at hf
    rcases ih (importStep (l, b) d).1 (importStep (l, b) d).2 hd2 hf with hacc | hne
    · have h0 : (b || (mergeOne d l).2.2) = true := hacc
      rw [Bool.or_eq_true] at h0
      rcases h0 with hb | hur
      · exact Or.inl hb
      · obtain ⟨s, hsl, hsm, hsdom, hsge⟩ := mergeOne_ur d l hur
        have hs1 : s ∈ (importStep (l, b) d).1 := by
          unfold importStep
          simp only
          split
          · exact hsm
          · exact List.mem_append_left _ hsm
        have hsfin : s ∈ ((d :: rest).foldl importStep (l, b)).1 := by
          rw [List.foldl_cons]
          exact foldl_importStep_keep rest _ _ s hs1 (hsdom ▸ hd1)
        refine Or.inr (List.any_eq_true.mpr ⟨s, hsfin, ?_⟩)
        have hany : ((d :: rest).any
            (fun e => s.domain == e.domain && decide (e.mDate.val ≤ s.mDate))) = true :=
          List.any_eq_true.mpr ⟨d, List.mem_cons_self _ _, by simp [hsdom, hsge]⟩
        rw [hany]
        simp
    · obtain ⟨s, hsfin, hc⟩ := List.any_eq_true.mp hne
      rw [← List.foldl_cons] at hsfin
      refine Or.inr (List.any_eq_true.mpr ⟨s, hsfin, ?_⟩)
      rw [Bool.or_eq_true] at hc
      rcases hc with hnd' | hge
      · have hdomfalse : (rest.any (fun e => s.domain == e.domain)) = false := by
          simpa using hnd'
        by_cases hsd : s.domain = d.domain
        · have hge2 : d.mDate.val ≤ s.mDate := by
            refine foldl_importStep_ge d.domain d.mDate.val rest
              (importStep (l, b) d).1 (importStep (l, b) d).2 hd1 ?_ s ?_ hsd
            · intro x hx hxd
              exact importStep_ge l b d x hx hxd
            · rw [List.foldl_cons] at hsfin
              exact hsfin
          have hany : ((d :: rest).any
              (fun e => s.domain == e.domain && decide (e.mDate.val ≤ s.mDate))) = true :=
            List.any_eq_true.mpr ⟨d, List.mem_cons_self _ _, by simp [hsd, hge2]⟩
          rw [hany]
          simp
        · have hall : ((d :: rest).any (fun e => s.domain == e.domain)) = false := by
            simp [List.any_cons, hsd, hdomfalse]
          rw [hall]
          simp
      · obtain ⟨e, he, hce⟩ := List.any_eq_true.mp hge
        have hany : ((d :: rest).any
            (fun e => s.domain == e.domain && decide (e.mDate.val ≤ s.mDate))) = true :=
          List.any_eq_true.mpr ⟨e, List.mem_cons_of_mem _ he, hce⟩
        rw [hany]
        simp

/-- C7 (amended): provided the imported payload holds at most one entry per domain,
`update_from_export_data` returns `true` if and only if, after merging, some local
record's domain has no corresponding entry in the payload or some local record's
post-merge timestamp is not strictly older than its imported counterpart's
(`needExport`).  Without that proviso the flag set in the first pass can outlive
the record that justified it, as `c7_return_value_counterexample` shows. -/
theorem c7_update_remote_iff_amended (m : PasswordSettingsManager) (password : String)
    (rd : List RecordData) (hnd : (rd.map (·.domain)).Nodup) :
    (m.update_from_export_data password rd).1 =
      needExport (m.update_from_export_data password rd).2.settings rd := by
  have h1 : (m.update_from_export_data password rd).1 =
      secondPass rd (rd.foldl importStep (m.settings, false)).1
        (rd.foldl importStep (m.settings, false)).2 := rfl
  have h2 : (m.update_from_export_data password rd).2.settings =
      (rd.foldl importStep (m.settings, false)).1 := rfl
  rw [h1, h2, secondPass_eq]
  by_cases hb : (rd.foldl importStep (m.settings, false)).2 = true
  · rcases foldl_importStep_ur rd m.settings false hnd hb with h | h
    · cases h
    · rw [hb, h]
      rfl
  · have hb' : (rd.foldl importStep (m.settings, false)).2 = false := by simpa using hb
    rw [hb']
    simp

/-- C7 witness: `exStore` against a single-entry (hence duplicate-free) payload
whose timestamp is older than the local record's. -/
theorem c7_update_remote_iff_amended_witness :
    (exStore.update_from_export_data "pw"
        [{ domain := "a", mDate := JDate.str 3, deleted := none, payload := some 1 }]).1 =
      needExport (exStore.update_from_export_data "pw"
          [{ domain := "a", mDate := JDate.str 3, deleted := none, payload := some 1 }]).2.settings
        [{ domain := "a", mDate := JDate.str 3, deleted := none, payload := some 1 }] :=
  c7_update_remote_iff_amended exStore "pw"
    [{ domain := "a", mDate := JDate.str 3, deleted := none, payload := some 1 }] (by decide)
